import Mathlib

/-!
Shallow embedding of the npio VFS library core, translated from the Rust
sources, together with theorems settling the frozen claims about it.

Conventions used throughout:
* machine integers are `Nat` with explicit `% 2^w` where overflow matters;
* bytes are `Nat` values below 256, byte strings are `List Nat`;
* Rust `Result<T, NpioError>` becomes `Except IOErrorEnum T` (the claims only
  ever inspect the error kind, never the message);
* stateful code becomes explicit state passing;
* a cancellation token observed by an operation is rendered by the step index
  from which it reads as cancelled (`Option Nat`), which bakes in the
  monotonicity of `Cancellable` (`cancel` is its only mutator).
-/

set_option maxRecDepth 8192

namespace Npio

/-- Error taxonomy, from `src/error.rs` (`enum IOErrorEnum`). -/
inductive IOErrorEnum where
  | NotFound | Exists | IsDirectory | NotDirectory | NotEmpty | Regular
  | SymbolicLink | Pending | Closed | Cancelled | NotSupported
  | PermissionDenied | InvalidArg | Failed | ProxyFailed | ProxyAuthFailed
  | ProxyNeedAuth | ProxyNotAllowed | BrokenPipe | ConnectionClosed
  | ConnectionRefused | HostUnreachable | NetworkUnreachable
  | ConnectionTimedOut | AddressInUse | PartialInput | InvalidData
  | TimedOut | WouldBlock | WriteZero | Interrupted | UnexpectedEof
  | OutOfMemory | Other
  deriving DecidableEq, Repr

/-- The `std::io::ErrorKind` values distinguished by the `From<io::Error>`
mapping in `src/error.rs`; `otherKind` stands for every kind that falls into
the `_` arm there (for example the raw `EXDEV` cross-device error). -/
inductive IoErrorKind where
  | NotFound | PermissionDenied | ConnectionRefused | ConnectionReset
  | ConnectionAborted | NotConnected | AddrInUse | AddrNotAvailable
  | BrokenPipe | AlreadyExists | WouldBlock | InvalidInput | InvalidData
  | TimedOut | WriteZero | Interrupted | Unsupported | UnexpectedEof
  | OutOfMemory | otherKind
  deriving DecidableEq, Repr

/-- OS-error ingress mapping, from `impl From<io::Error> for NpioError` in
`src/error.rs` (the kind component; message and source are dropped). -/
def npioErrorFromIoError : IoErrorKind → IOErrorEnum
  | .NotFound => .NotFound
  | .PermissionDenied => .PermissionDenied
  | .ConnectionRefused => .ConnectionRefused
  | .ConnectionReset => .ConnectionClosed
  | .ConnectionAborted => .ConnectionClosed
  | .NotConnected => .ConnectionClosed
  | .AddrInUse => .AddressInUse
  | .AddrNotAvailable => .AddressInUse
  | .BrokenPipe => .BrokenPipe
  | .AlreadyExists => .Exists
  | .WouldBlock => .WouldBlock
  | .InvalidInput => .InvalidArg
  | .InvalidData => .InvalidData
  | .TimedOut => .TimedOut
  | .WriteZero => .WriteZero
  | .Interrupted => .Interrupted
  | .Unsupported => .NotSupported
  | .UnexpectedEof => .UnexpectedEof
  | .OutOfMemory => .OutOfMemory
  | .otherKind => .Failed

/-! ## Cancellation token, from `src/cancellable.rs`

The token's state is the boolean behind its mutex.  `cancel` is the only
operation that writes it. -/

namespace Cancellable

/-- `Cancellable::cancel`: sets the flag (idempotently). -/
def cancel (_state : Bool) : Bool := true

/-- `Cancellable::is_cancelled`: reads the flag. -/
def is_cancelled (state : Bool) : Bool := state

/-- `Cancellable::check`: `Err(Cancelled)` when cancelled, `Ok(())` otherwise. -/
def check (state : Bool) : Except IOErrorEnum Unit :=
  if is_cancelled state then .error .Cancelled else .ok ()

/-- The operations that touch the token's state.  `cancel` is the only
mutator in `src/cancellable.rs` (`is_cancelled`, `check` and `cancelled`
only read). -/
inductive Op where
  | cancel
  deriving DecidableEq, Repr

/-- Apply a sequence of state-touching operations to the token. -/
def applyOps (state : Bool) : List Op → Bool
  | [] => state
  | .cancel :: rest => applyOps (cancel state) rest

end Cancellable

/-- A cancellation token as seen by a multi-step operation: `none` is a token
that never reads cancelled, `some k` is a token whose `is_cancelled` reads
true at every check from step `k` on (monotone, as guaranteed by
`Cancellable`). -/
def cancelledAt : Option Nat → Nat → Bool
  | none, _ => false
  | some k, i => decide (k ≤ i)

/-! ## Copy flags, from `src/job.rs` (`bitflags CopyFlags`) -/

/-- `CopyFlags`, one field per bit flag. -/
structure CopyFlags where
  overwrite : Bool
  backup : Bool
  no_fallback_for_move : Bool
  target_default_perms : Bool
  deriving DecidableEq, Repr

/-- `CopyFlags::NONE`. -/
def CopyFlags.flagsNone : CopyFlags := ⟨false, false, false, false⟩

/-- `CopyFlags::OVERWRITE` alone. -/
def CopyFlags.overwriteOnly : CopyFlags := ⟨true, false, false, false⟩

/-! ## The copy pump, from `LocalFile::copy` in `src/file/local.rs`

The pump loop is:
`loop { if cancelled -> Err(Cancelled); n = read(<=8192); if n == 0 break;`
`write_all(chunk); total_written += n; progress(total_written, total) }`.
The source stream is modelled as the byte list still to be read (each `read`
returns the next `min 8192` bytes); the model returns the list of written
chunks together with the list of cumulative counts passed to the progress
callback. -/

/-- One run of the copy loop of `LocalFile::copy`, starting at check index
`i` with `written` bytes already written.  Returns `(chunks, progress)` on
success: the chunks written to the destination, and the cumulative byte
count reported to the progress callback after each chunk. -/
def copyPump (cancelFrom : Option Nat) (i written : Nat) (src : List Nat) :
    Except IOErrorEnum (List (List Nat) × List Nat) :=
  if cancelledAt cancelFrom i then .error .Cancelled
  else
    match src with
    | [] => .ok ([], [])
    | b :: rest0 =>
      match copyPump cancelFrom (i + 1)
          (written + ((b :: rest0).take 8192).length) ((b :: rest0).drop 8192) with
      | .error e => .error e
      | .ok (chunks, prog) =>
        .ok ((b :: rest0).take 8192 :: chunks,
             (written + ((b :: rest0).take 8192).length) :: prog)
termination_by src.length
decreasing_by
  simp only [List.length_drop, List.length_cons]
  omega

/-- `LocalFile::copy` from `src/file/local.rs`: check the token, open the
source, open the destination — `replace` under `OVERWRITE`, else
`create_file` with `create_new(true)`, whose `AlreadyExists` OS error is
mapped on ingress — then run the pump.  `destExists` says whether the
destination path already exists. -/
def LocalFile.copy (src : List Nat) (destExists : Bool) (flags : CopyFlags)
    (cancelFrom : Option Nat) :
    Except IOErrorEnum (List (List Nat) × List Nat) :=
  if cancelledAt cancelFrom 0 then .error .Cancelled
  else if !flags.overwrite && destExists then
    .error (npioErrorFromIoError .AlreadyExists)
  else copyPump cancelFrom 0 0 src

/-- Number of loop iterations of the pump that write a chunk. -/
def numChunks (src : List Nat) : Nat := (src.length + 8191) / 8192

/-- Cumulative byte counts after each chunk, starting from `acc` bytes
already written (statement vocabulary for the progress-callback property). -/
def cumulativeLengths : List (List Nat) → Nat → List Nat
  | [], _ => []
  | c :: cs, acc => (acc + c.length) :: cumulativeLengths cs (acc + c.length)

/-! ## `LocalFile::move_to`, from `src/file/local.rs`

The code branches on whether the destination's URI starts with `file://`.
In that branch it checks `Overwrite`, then renames, and maps **every**
rename failure to `NpioError::new(IOErrorEnum::Failed, ..)`.  Only the
non-`file://` branch performs copy-then-delete. -/

/-- The rename errors the OS can report; the claim singles out the
cross-device case. -/
inductive RenameError where
  | crossDevice
  | permissionDenied
  | otherFailure
  deriving DecidableEq, Repr

/-- Which effect a completed `move_to` performed. -/
inductive MoveMethod where
  | renamed
  | copiedThenDeleted
  deriving DecidableEq, Repr

/-- `LocalFile::move_to`: `destUriIsFile` is
`destination.uri().starts_with("file://")`, `destExists` is
`dest_path.exists()`, `renameResult` is the outcome of
`tokio::fs::rename` (`none` = success).  Failures of the fallback
copy+delete pair are not modelled (the claims do not concern them). -/
def LocalFile.move_to (destUriIsFile destExists : Bool) (flags : CopyFlags)
    (renameResult : Option RenameError) (cancelledState : Bool) :
    Except IOErrorEnum MoveMethod :=
  match Cancellable.check cancelledState with
  | .error e => .error e
  | .ok _ =>
    if destUriIsFile then
      if destExists && !flags.overwrite then .error .Exists
      else
        match renameResult with
        | none => .ok .renamed
        | some _ => .error .Failed
    else
      .ok .copiedThenDeleted

/-! ## `LocalFile::create_file`, from `src/file/local.rs`

`OpenOptions::new().write(true).create_new(true)`: an exclusive create.  The
filesystem is modelled as the list of existing paths; on an existing path the
OS reports `AlreadyExists`, which the `?` operator maps through
`From<io::Error>`. -/

/-- `LocalFile::create_file` over a model filesystem `fs` (list of existing
paths).  Returns the filesystem extended with the created path. -/
def LocalFile.create_file (cancelledState : Bool) (fs : List String)
    (path : String) : Except IOErrorEnum (List String) :=
  match Cancellable.check cancelledState with
  | .error e => .error e
  | .ok _ =>
    if path ∈ fs then .error (npioErrorFromIoError .AlreadyExists)
    else .ok (path :: fs)

/-! ## Substring search

Rust `str::contains(pat)` is substring presence; it is also what
`get_file_for_uri` relies on through `split("://")`, and what
`UnixMount::new` uses via `mount_options.contains("ro")`.  URIs and option
strings are handled as their character lists. -/

/-- Substring presence: `containsSub s pat` is Rust `s.contains(pat)` on the
character lists of the two strings. -/
def containsSub : List Char → List Char → Bool
  | [], pat => pat.isEmpty
  | c :: t, pat => pat.isPrefixOf (c :: t) || containsSub t pat

/-- The prefix of `s` before the first occurrence of `pat` (all of `s` when
`pat` does not occur): this is `split(pat).first()` in Rust. -/
def beforeFirst : List Char → List Char → List Char
  | s, pat => if pat.isPrefixOf s then []
    else match s with
    | [] => []
    | c :: t => c :: beforeFirst t pat

/-! ## URI dispatch, from `src/backend.rs` and `src/backend/local.rs`

`get_file_for_uri` splits the URI on `"://"`; with no separator the scheme
defaults to `"file"`.  The registry of the repository holds the single
`LocalBackend` under scheme `"file"`; it is modelled as exactly that map.
`LocalBackend::get_file_for_uri` rejects URIs that do not start with
`file://` and otherwise strips the prefix with `trim_start_matches`, which
removes the prefix *repeatedly*.  `LocalFile::uri` re-attaches `file://`. -/

/-- Fuel-bounded worker for `trim_start_matches("file://")`; each strip
removes seven characters, so `s.length` steps of fuel always suffice. -/
def trimFileSchemeAux : Nat → List Char → List Char
  | 0, s => s
  | fuel + 1, s =>
    if ("file://".data).isPrefixOf s then trimFileSchemeAux fuel (s.drop 7)
    else s

/-- `uri.trim_start_matches("file://")`: repeatedly strips the prefix. -/
def trimStartMatchesFileScheme (s : List Char) : List Char :=
  trimFileSchemeAux s.length s

/-- `LocalFile::uri` from `src/file/local.rs`: `format!("file://{}", path)`. -/
def LocalFile.uri (path : List Char) : List Char := "file://".data ++ path

/-- `LocalBackend::get_file_for_uri` from `src/backend/local.rs`: the
resulting handle is identified by its path. -/
def LocalBackend.get_file_for_uri (uri : List Char) : Except IOErrorEnum (List Char) :=
  if !("file://".data.isPrefixOf uri) then .error .InvalidArg
  else .ok (trimStartMatchesFileScheme uri)

/-- `get_file_for_uri` from `src/backend.rs`, with the repository's one
backend (`LocalBackend` under scheme `"file"`) registered.  Returns the
`uri()` of the resolved handle. -/
def get_file_for_uri (uri : List Char) : Except IOErrorEnum (List Char) :=
  let scheme :=
    if containsSub uri "://".data then beforeFirst uri "://".data else "file".data
  if scheme = "file".data then
    match LocalBackend.get_file_for_uri uri with
    | .error e => .error e
    | .ok path => .ok (LocalFile.uri path)
  else .error .NotSupported

/-! ## Trash percent-encoding, from `LocalFile::trash` in `src/file/local.rs`

The trashinfo `Path=` value is built by splitting the absolute canonical
path on `/`, percent-encoding each component with `utf8_percent_encode`
against `PATH_ENCODE_SET`, and re-joining with `/` under a leading `/`.
Paths are handled as UTF-8 byte lists (`List Nat`); byte 47 is `/`. -/

/-- `PATH_ENCODE_SET` from `LocalFile::trash`: the `percent_encoding`
crate's `CONTROLS` (bytes below 0x20 and byte 0x7F) plus space `"` `<` `>`
backtick `#` `?` left-brace right-brace `[` `]` `|` backslash `^` `&` `*`
`%` (given by their byte values). -/
def PATH_ENCODE_SET (b : Nat) : Bool :=
  b < 32 || b == 127 || b == 32 || b == 34 || b == 60 || b == 62 || b == 96 ||
  b == 35 || b == 63 || b == 123 || b == 125 || b == 91 || b == 93 ||
  b == 124 || b == 92 || b == 94 || b == 38 || b == 42 || b == 37

/-- Uppercase hexadecimal digit byte, as emitted by `percent_encoding`. -/
def hexUpperDigit (n : Nat) : Nat := if n < 10 then 48 + n else 55 + n

/-- The `percent_encoding` crate's `should_percent_encode`: a byte is
encoded iff it is not ASCII or it is in the `AsciiSet`
(`!byte.is_ascii() || set.contains(byte)`) — non-ASCII bytes are always
encoded, whatever the set. -/
def shouldPercentEncode (b : Nat) : Bool :=
  !(decide (b < 128)) || PATH_ENCODE_SET b

/-- Percent-encode one byte as the crate's encoder does: bytes in the set
and all non-ASCII bytes become `%XX` (uppercase hex), every other byte
passes through. -/
def percentEncodeByte (b : Nat) : List Nat :=
  if shouldPercentEncode b then [37, hexUpperDigit (b / 16), hexUpperDigit (b % 16)]
  else [b]

/-- `utf8_percent_encode(component, PATH_ENCODE_SET)` on the byte list of a
path component. -/
def encodeComponent (comp : List Nat) : List Nat :=
  (comp.map percentEncodeByte).flatten

/-- Rust `str::split('/')` on a byte list (keeps empty pieces, like the
source iterator collected into `path_components`). -/
def splitOnSlash : List Nat → List (List Nat)
  | [] => [[]]
  | b :: t =>
    if b == 47 then [] :: splitOnSlash t
    else
      match splitOnSlash t with
      | [] => [[b]]
      | h :: r => (b :: h) :: r

/-- The `Path=` value computed by `LocalFile::trash`: drop a leading `/`,
split on `/`, percent-encode each component, join with `/`, and prepend `/`
(`format!("/{}", encoded_components.join("/"))`). -/
def trashEncodePath (p : List Nat) : List Nat :=
  let comps :=
    if p.headD 0 == 47 then splitOnSlash (p.drop 1) else splitOnSlash p
  47 :: List.intercalate [47] (comps.map encodeComponent)

/-- The trashinfo file content from `LocalFile::trash`:
`format!("[Trash Info]\nPath={}\nDeletionDate={}\n", encoded_path, deletion_date)`. -/
def trashinfoContent (encodedPath deletionDate : String) : String :=
  "[Trash Info]\nPath=" ++ encodedPath ++ "\nDeletionDate=" ++ deletionDate ++ "\n"

/-- The byte list of an ASCII string (for ASCII text the UTF-8 bytes are the
code points). -/
def strBytes (s : String) : List Nat := s.data.map Char.toNat

/-- The set of characters the claim says are encoded, written from the
claim's words: space, double-quote, `<`, `>`, backtick, `#`, `?`, the two
braces, `[`, `]`, `|`, backslash, `^`, `&`, `*`, `%`, and control bytes
(C0 controls and DEL).  Used only to compare against the code's set. -/
def specEncodedChars (b : Nat) : Bool :=
  b == 32 || b == 34 || b == 60 || b == 62 || b == 96 || b == 35 || b == 63 ||
  b == 123 || b == 125 || b == 91 || b == 93 || b == 124 || b == 92 ||
  b == 94 || b == 38 || b == 42 || b == 37 || b < 32 || b == 127

/-! ## Mount table, from `src/backend/mount.rs`

`parse_mountinfo_line` whitespace-splits a `/proc/self/mountinfo` line,
reads the six fixed fields, collects the optional fields up to the `-`
separator, and reads filesystem type, source and super-options after it.
`UnixMount::new` classifies the entry; `can_unmount`/`can_eject` read the
classification.  `PathBuf` comparisons in Rust compare *component*
sequences, which is modelled by `rustPathComponents`. -/

/-- Worker for whitespace splitting: `acc` holds the reversed current
word. -/
def wordsAux : List Char → List Char → List (List Char)
  | [], acc => if acc.isEmpty then [] else [acc.reverse]
  | c :: t, acc =>
    if c.isWhitespace then
      if acc.isEmpty then wordsAux t [] else acc.reverse :: wordsAux t []
    else wordsAux t (c :: acc)

/-- Rust `str::split_whitespace`: split at whitespace, no empty pieces. -/
def splitWhitespace (s : String) : List String :=
  (wordsAux s.data []).map String.mk

/-- Rust `str::parse::<u32>` on the plain digit strings that occur in mount
tables: `None` on empty or non-digit text or on overflow (the `+` sign
accepted by the Rust parser never occurs in a mount table). -/
def parseU32 (s : String) : Option Nat :=
  if s.data ≠ [] ∧ s.data.all Char.isDigit then
    let n := s.data.foldl (fun acc c => acc * 10 + (c.toNat - 48)) 0
    if n < 4294967296 then some n else none
  else none

/-- Worker for single-character splitting (keeps empty pieces, like Rust
`str::split('/')` and `String::splitOn`). -/
def splitOnCharAux (sep : Char) : List Char → List Char → List (List Char)
  | [], acc => [acc.reverse]
  | c :: t, acc =>
    if c = sep then acc.reverse :: splitOnCharAux sep t []
    else splitOnCharAux sep t (c :: acc)

/-- Split a string at every occurrence of a character. -/
def splitOnChar (sep : Char) (s : String) : List String :=
  (splitOnCharAux sep s.data []).map String.mk

/-- Rust `str::starts_with` on strings. -/
def strStartsWith (s pre : String) : Bool := pre.data.isPrefixOf s.data

/-- The component sequence of a `Path`, with a root marker for absolute
paths; repeated separators and non-leading `.` components are normalized
away, as Rust's `Components` iterator does. -/
def rustPathComponents (s : String) : List String :=
  (if strStartsWith s "/" then ["/"] else []) ++
    (splitOnChar '/' s).filter (fun c => c ≠ "" && c ≠ ".")

/-- `Path::starts_with`: component-sequence prefix. -/
def pathStartsWith (p pre : String) : Bool :=
  (rustPathComponents pre).isPrefixOf (rustPathComponents p)

/-- `PathBuf` equality: equal component sequences. -/
def pathEq (p q : String) : Bool := rustPathComponents p == rustPathComponents q

/-- A parsed `/proc/self/mountinfo` line (`struct MountEntry`). -/
structure MountEntry where
  mount_id : Nat
  parent_id : Nat
  major_minor : String
  root : String
  mount_point : String
  mount_options : String
  optional_fields : String
  filesystem_type : String
  source : String
  super_options : String
  deriving DecidableEq, Repr

/-- `MountBackend::parse_mountinfo_line`. -/
def parse_mountinfo_line (line : String) : Option MountEntry :=
  let parts := splitWhitespace line
  if parts.length < 10 then none
  else
    match parseU32 (parts.getD 0 ""), parseU32 (parts.getD 1 "") with
    | some mount_id, some parent_id =>
      -- the loop from index 6 accumulates optional fields until a `-` part;
      -- when a `-` is found the filesystem fields start right after it,
      -- otherwise the index stays at 6 (the source's initial value)
      let optionalParts := (parts.drop 6).takeWhile (fun p => p ≠ "-")
      let filesystem_type_idx :=
        if (parts.drop 6).contains "-" then 6 + optionalParts.length + 1 else 6
      if parts.length ≤ filesystem_type_idx + 1 then none
      else
        some
          { mount_id := mount_id
            parent_id := parent_id
            major_minor := parts.getD 2 ""
            root := parts.getD 3 ""
            mount_point := parts.getD 4 ""
            mount_options := parts.getD 5 ""
            optional_fields := " ".intercalate optionalParts
            filesystem_type := parts.getD filesystem_type_idx ""
            source := parts.getD (filesystem_type_idx + 1) ""
            super_options :=
              if parts.length > filesystem_type_idx + 2 then
                " ".intercalate (parts.drop (filesystem_type_idx + 2))
              else "" }
    | _, _ => none

/-- `struct UnixMount` (the fields `UnixMount::new` fills in). -/
structure UnixMount where
  mount_point : String
  source : String
  filesystem_type : String
  is_read_only : Bool
  is_system_internal : Bool
  deriving DecidableEq, Repr

/-- `UnixMount::new`, from `src/backend/mount.rs`: read-only iff the
options string `contains("ro")` (a substring test), system-internal by
mount point or filesystem type. -/
def UnixMount.new (e : MountEntry) : UnixMount :=
  { mount_point := e.mount_point
    source := e.source
    filesystem_type := e.filesystem_type
    is_read_only := containsSub e.mount_options.data "ro".data
    is_system_internal :=
      pathEq e.mount_point "/" ||
      pathStartsWith e.mount_point "/sys" ||
      pathStartsWith e.mount_point "/proc" ||
      pathStartsWith e.mount_point "/dev" ||
      e.filesystem_type == "tmpfs" ||
      e.filesystem_type == "devtmpfs" ||
      e.filesystem_type == "sysfs" ||
      e.filesystem_type == "proc" ||
      e.filesystem_type == "devpts" }

/-- `Mount::can_unmount` for `UnixMount`. -/
def UnixMount.can_unmount (m : UnixMount) : Bool := !m.is_system_internal

/-- `Mount::can_eject` for `UnixMount`. -/
def UnixMount.can_eject (m : UnixMount) : Bool :=
  pathStartsWith m.mount_point "/media" || pathStartsWith m.mount_point "/mnt"

/-- The claim's read-only rule, written from the spec's words: `ro` present
as a comma-separated token of the options field.  Used only to compare
against the code's substring test. -/
def specRoTokenPresent (opts : String) : Bool :=
  (splitOnChar ',' opts).contains "ro"

/-! ## Directory model monitor task, from `src/model/directory.rs`

The background task of `DirectoryModel::load` reacts to one monitor event at
a time: it optionally queries the child's info, mutates the shared `files`
list, and broadcasts deltas.  One iteration of that task is a pure step
function from the current list, the event, and the outcome of `query_info`
(`none` = the query failed) to the new list plus the broadcast deltas. -/

/-- The file metadata the directory model stores: `get_name()` plus the rest
of the attribute bag (collapsed into one `stamp` field, enough to tell two
infos for the same name apart). -/
structure FileInfoM where
  name : Option String
  stamp : Nat
  deriving DecidableEq, Repr

/-- The monitor events the task distinguishes (`FileMonitorEvent`); events
other than Created/Deleted/Changed fall into the ignored arm. -/
inductive FileMonitorEventM where
  | created (basename : String)
  | deleted (basename : String)
  | changed (basename : String)
  | otherEvent
  deriving DecidableEq, Repr

/-- The deltas broadcast on the update channel (`DirectoryUpdate`); the
`Initial` variant is sent before the task starts and never by a step. -/
inductive DirectoryUpdateM where
  | added (info : FileInfoM)
  | removed (info : FileInfoM)
  | changed (info : FileInfoM)
  deriving DecidableEq, Repr

/-- The basename lookup the task performs:
`files.iter().position(|f| f.get_name() == Some(&basename))`. -/
def findByName (files : List FileInfoM) (basename : String) : Option Nat :=
  match files with
  | [] => none
  | f :: rest =>
    if f.name == some basename then some 0
    else (findByName rest basename).map (· + 1)

/-- One iteration of the monitor task of `DirectoryModel::load`:
`queryResult` is the outcome of `query_info` for the event's child (only
consulted for Created/Changed).  Returns the new list and the deltas sent. -/
def monitorStep (files : List FileInfoM) (ev : FileMonitorEventM)
    (queryResult : Option FileInfoM) : List FileInfoM × List DirectoryUpdateM :=
  match ev with
  | .created _ =>
    match queryResult with
    | some info => (files ++ [info], [.added info])
    | none => (files, [])
  | .deleted basename =>
    match findByName files basename with
    | some pos =>
      (files.eraseIdx pos, [.removed (files.getD pos ⟨none, 0⟩)])
    | none => (files, [])
  | .changed basename =>
    match queryResult with
    | some info =>
      (match findByName files basename with
       | some pos => files.set pos info
       | none => files,
       [.changed info])
    | none => (files, [])
  | .otherEvent => (files, [])

/-! ## Thumbnail file names, from `ThumbnailBackend::uri_to_thumbnail_name`
in `src/backend/thumbnail.rs`

The source hashes the URI with `std::collections::hash_map::DefaultHasher`
— SipHash-1-3 with both keys zero — and formats the 64-bit result with
`format!("{:x}.png", ..)`.  Hashing a `&str` feeds the hasher the string's
bytes followed by a single `0xff` byte.  64-bit words are `Nat` values kept
below `2^64`. -/

/-- Truncation to 64 bits. -/
def w64 (n : Nat) : Nat := n % 18446744073709551616

/-- 64-bit left rotation (both inputs in range). -/
def rotl64 (x n : Nat) : Nat :=
  ((x <<< n) % 18446744073709551616) ||| (x >>> (64 - n))

/-- The four 64-bit state words of SipHash. -/
structure SipState where
  v0 : Nat
  v1 : Nat
  v2 : Nat
  v3 : Nat
  deriving DecidableEq, Repr

/-- One SipHash round (the `SIPROUND` of the reference algorithm, as in the
Rust standard library's `sip.rs`). -/
def sipRound (s : SipState) : SipState :=
  let v0 := w64 (s.v0 + s.v1)
  let v1a := rotl64 s.v1 13
  let v1b := v1a ^^^ v0
  let v0a := rotl64 v0 32
  let v2 := w64 (s.v2 + s.v3)
  let v3a := rotl64 s.v3 16
  let v3b := v3a ^^^ v2
  let v0b := w64 (v0a + v3b)
  let v3c := rotl64 v3b 21
  let v3d := v3c ^^^ v0b
  let v2a := w64 (v2 + v1b)
  let v1c := rotl64 v1b 17
  let v1d := v1c ^^^ v2a
  let v2b := rotl64 v2a 32
  ⟨v0b, v1d, v2b, v3d⟩

/-- Little-endian word value of a byte list (first byte least significant). -/
def leWord (bs : List Nat) : Nat := bs.foldr (fun b acc => b + 256 * acc) 0

/-- Absorb the full 8-byte words of the message (one SipHash-1-3 compression
round per word); returns the state and the remaining tail bytes. -/
def sipBlocks : SipState → List Nat → SipState × List Nat
  | s, b0 :: b1 :: b2 :: b3 :: b4 :: b5 :: b6 :: b7 :: rest =>
    let m := leWord [b0, b1, b2, b3, b4, b5, b6, b7]
    let s1 := sipRound { s with v3 := s.v3 ^^^ m }
    sipBlocks { s1 with v0 := s1.v0 ^^^ m } rest
  | s, rest => (s, rest)

/-- SipHash-1-3 of a byte message under keys `k0`, `k1` (the algorithm
behind `DefaultHasher`): 1 compression round per word, 3 finalization
rounds. -/
def siphash13 (k0 k1 : Nat) (msg : List Nat) : Nat :=
  let s0 : SipState :=
    ⟨k0 ^^^ 0x736f6d6570736575, k1 ^^^ 0x646f72616e646f6d,
     k0 ^^^ 0x6c7967656e657261, k1 ^^^ 0x7465646279746573⟩
  let (s, tail) := sipBlocks s0 msg
  let b := ((msg.length % 256) <<< 56) + leWord tail
  let s1 := sipRound { s with v3 := s.v3 ^^^ b }
  let s2 := { s1 with v0 := s1.v0 ^^^ b }
  let s3 := { s2 with v2 := s2.v2 ^^^ 255 }
  let s4 := sipRound (sipRound (sipRound s3))
  s4.v0 ^^^ s4.v1 ^^^ s4.v2 ^^^ s4.v3

/-- `DefaultHasher::new()` + `str::hash` + `finish()`: SipHash-1-3 with zero
keys over the string's bytes followed by `0xff`. -/
def defaultHasherOfStr (s : String) : Nat := siphash13 0 0 (strBytes s ++ [255])

/-- Lowercase hexadecimal digit. -/
def hexLowerDigit (n : Nat) : Char := Char.ofNat (if n < 10 then 48 + n else 87 + n)

/-- Fuel-bounded digit extraction for `format!("{:x}", n)`, most
significant digit first; `n` steps of fuel always suffice since the value
shrinks by a factor of 16 each step. -/
def toHexLowerAux : Nat → Nat → List Char → List Char
  | 0, _, acc => acc
  | fuel + 1, n, acc =>
    if n = 0 then acc
    else toHexLowerAux fuel (n / 16) (hexLowerDigit (n % 16) :: acc)

/-- `format!("{:x}", n)`: lowercase hex, no leading zeros. -/
def toHexLower (n : Nat) : String :=
  if n = 0 then "0" else String.mk (toHexLowerAux n n [])

/-- `ThumbnailBackend::uri_to_thumbnail_name` from
`src/backend/thumbnail.rs`: `format!("{:x}.png", hasher.finish())` with a
`DefaultHasher` fed the URI (the function's own doc comment promises the
MD5 hash of the URI instead). -/
def uri_to_thumbnail_name (uri : String) : String :=
  toHexLower (defaultHasherOfStr uri) ++ ".png"

/-! ## MD5, modelled from the spec

Modelled from the spec: the fingerprint algorithm the spec prescribes
(`MD5(uri_bytes)` hex lowercase, RFC 1321) is provided by the external
`md5` crate (exercised by `examples/repro_md5.rs`), whose source is not
under `src/`; it is reproduced here to check the claim's digest.  32-bit
words are `Nat` values kept below `2^32`. -/

/-- Truncation to 32 bits. -/
def w32 (n : Nat) : Nat := n % 4294967296

/-- 32-bit left rotation (input in range). -/
def rotl32 (x n : Nat) : Nat := ((x <<< n) % 4294967296) ||| (x >>> (32 - n))

/-- 32-bit complement. -/
def not32 (x : Nat) : Nat := x ^^^ 4294967295

/-- The `k` least-significant bytes of `n`, little-endian. -/
def leBytes : Nat → Nat → List Nat
  | 0, _ => []
  | k + 1, n => (n % 256) :: leBytes k (n / 256)

/-- The MD5 sine-derived round constants. -/
def md5K : List Nat :=
  [0xd76aa478, 0xe8c7b756, 0x242070db, 0xc1bdceee,
   0xf57c0faf, 0x4787c62a, 0xa8304613, 0xfd469501,
   0x698098d8, 0x8b44f7af, 0xffff5bb1, 0x895cd7be,
   0x6b901122, 0xfd987193, 0xa679438e, 0x49b40821,
   0xf61e2562, 0xc040b340, 0x265e5a51, 0xe9b6c7aa,
   0xd62f105d, 0x02441453, 0xd8a1e681, 0xe7d3fbc8,
   0x21e1cde6, 0xc33707d6, 0xf4d50d87, 0x455a14ed,
   0xa9e3e905, 0xfcefa3f8, 0x676f02d9, 0x8d2a4c8a,
   0xfffa3942, 0x8771f681, 0x6d9d6122, 0xfde5380c,
   0xa4beea44, 0x4bdecfa9, 0xf6bb4b60, 0xbebfbc70,
   0x289b7ec6, 0xeaa127fa, 0xd4ef3085, 0x04881d05,
   0xd9d4d039, 0xe6db99e5, 0x1fa27cf8, 0xc4ac5665,
   0xf4292244, 0x432aff97, 0xab9423a7, 0xfc93a039,
   0x655b59c3, 0x8f0ccc92, 0xffeff47d, 0x85845dd1,
   0x6fa87e4f, 0xfe2ce6e0, 0xa3014314, 0x4e0811a1,
   0xf7537e82, 0xbd3af235, 0x2ad7d2bb, 0xeb86d391]

/-- The MD5 per-step rotation amounts. -/
def md5S : List Nat :=
  [7, 12, 17, 22, 7, 12, 17, 22, 7, 12, 17, 22, 7, 12, 17, 22,
   5, 9, 14, 20, 5, 9, 14, 20, 5, 9, 14, 20, 5, 9, 14, 20,
   4, 11, 16, 23, 4, 11, 16, 23, 4, 11, 16, 23, 4, 11, 16, 23,
   6, 10, 15, 21, 6, 10, 15, 21, 6, 10, 15, 21, 6, 10, 15, 21]

/-- The MD5 round function for step `i`. -/
def md5F (i b c d : Nat) : Nat :=
  if i < 16 then (b &&& c) ||| (not32 b &&& d)
  else if i < 32 then (d &&& b) ||| (not32 d &&& c)
  else if i < 48 then b ^^^ c ^^^ d
  else c ^^^ (b ||| not32 d)

/-- The MD5 message-word index for step `i`. -/
def md5G (i : Nat) : Nat :=
  if i < 16 then i
  else if i < 32 then (5 * i + 1) % 16
  else if i < 48 then (3 * i + 5) % 16
  else (7 * i) % 16

/-- Little-endian 32-bit word `g` of a 64-byte block. -/
def leWordAt (block : List Nat) (g : Nat) : Nat :=
  leWord ((block.drop (4 * g)).take 4)

/-- Process one 64-byte block into the running MD5 state. -/
def md5ProcessBlock (st : Nat × Nat × Nat × Nat) (block : List Nat) :
    Nat × Nat × Nat × Nat :=
  let (a0, b0, c0, d0) := st
  let (a, b, c, d) :=
    (List.range 64).foldl
      (fun (t : Nat × Nat × Nat × Nat) i =>
        let (a, b, c, d) := t
        let f := w32 (md5F i b c d + a + md5K.getD i 0 + leWordAt block (md5G i))
        (d, w32 (b + rotl32 f (md5S.getD i 0)), b, c))
      (a0, b0, c0, d0)
  (w32 (a0 + a), w32 (b0 + b), w32 (c0 + c), w32 (d0 + d))

/-- Fuel-bounded splitting into 64-byte blocks; each step consumes at
least one byte, so `l.length` steps of fuel always suffice. -/
def toBlocksAux : Nat → List Nat → List (List Nat)
  | 0, _ => []
  | fuel + 1, l =>
    match l with
    | [] => []
    | b :: rest => ((b :: rest).take 64) :: toBlocksAux fuel ((b :: rest).drop 64)

/-- Split a (padded) message into 64-byte blocks. -/
def toBlocks (l : List Nat) : List (List Nat) := toBlocksAux l.length l

/-- MD5 digest (16 bytes) of a byte message. -/
def md5 (msg : List Nat) : List Nat :=
  let padded :=
    msg ++ 128 :: List.replicate ((119 - msg.length % 64) % 64) 0 ++
      leBytes 8 (8 * msg.length)
  let (a, b, c, d) :=
    (toBlocks padded).foldl md5ProcessBlock
      (0x67452301, 0xefcdab89, 0x98badcfe, 0x10325476)
  leBytes 4 a ++ leBytes 4 b ++ leBytes 4 c ++ leBytes 4 d

/-- Two lowercase hex digits of a byte. -/
def byteToHexLower (b : Nat) : List Char :=
  [hexLowerDigit (b / 16), hexLowerDigit (b % 16)]

/-- Lowercase-hex MD5 digest of a byte message. -/
def md5Hex (msg : List Nat) : String :=
  String.mk ((md5 msg).map byteToHexLower).flatten

/-! ## Helper lemmas -/

/-- Substring presence is the existence of a decomposition around the
pattern. -/
theorem containsSub_iff (s pat : List Char) :
    containsSub s pat = true ↔ ∃ a b, s = a ++ pat ++ b := by
  induction s with
  | nil =>
    simp only [containsSub, List.isEmpty_iff]
    constructor
    · rintro rfl
      exact ⟨[], [], rfl⟩
    · rintro ⟨a, b, h⟩
      rcases a with _ | ⟨a0, a'⟩
      · rcases pat with _ | ⟨p0, p'⟩
        · rfl
        · simp at h
      · simp at h
  | cons c t ih =>
    simp only [containsSub, Bool.or_eq_true, ih]
    constructor
    · rintro (hpre | ⟨a, b, rfl⟩)
      · obtain ⟨u, hu⟩ := List.isPrefixOf_iff_prefix.mp hpre
        exact ⟨[], u, by simpa using hu.symm⟩
      · exact ⟨c :: a, b, rfl⟩
    · rintro ⟨a, b, h⟩
      rcases a with _ | ⟨a0, a'⟩
      · left
        exact List.isPrefixOf_iff_prefix.mpr ⟨b, by simpa using h.symm⟩
      · right
        simp only [List.cons_append, List.cons.injEq] at h
        exact ⟨a', b, h.2⟩

/-- A token that never reads cancelled passes every check. -/
theorem cancelledAt_none (i : Nat) : cancelledAt none i = false := rfl

/-- The pump with an untripped token copies everything: it returns the
chunk decomposition of the source, every chunk at most 8 KiB, and reports
the cumulative byte counts. -/
theorem copyPump_none_ok :
    ∀ (n : Nat) (src : List Nat) (i w : Nat), src.length ≤ n →
    ∃ chunks prog, copyPump none i w src = .ok (chunks, prog)
      ∧ chunks.flatten = src
      ∧ (∀ c ∈ chunks, c.length ≤ 8192)
      ∧ prog = cumulativeLengths chunks w := by
  intro n
  induction n with
  | zero =>
    intro src i w h
    have hsrc : src = [] := List.length_eq_zero.mp (Nat.le_zero.mp h)
    subst hsrc
    exact ⟨[], [], by simp [copyPump, cancelledAt], rfl, by simp, rfl⟩
  | succ n ih =>
    intro src i w h
    match src with
    | [] =>
      exact ⟨[], [], by simp [copyPump, cancelledAt], rfl, by simp, rfl⟩
    | b :: rest0 =>
      have hlen : ((b :: rest0).drop 8192).length ≤ n := by
        simp only [List.length_drop, List.length_cons]
        simp only [List.length_cons] at h
        omega
      obtain ⟨chunks, prog, heq, hflat, hle, hprog⟩ :=
        ih ((b :: rest0).drop 8192) (i + 1) (w + ((b :: rest0).take 8192).length) hlen
      refine ⟨(b :: rest0).take 8192 :: chunks,
        (w + ((b :: rest0).take 8192).length) :: prog, ?_, ?_, ?_, ?_⟩
      · rw [copyPump.eq_def]
        simp only [cancelledAt, Bool.false_eq_true, if_false, heq]
      · simpa [hflat] using List.take_append_drop 8192 (b :: rest0)
      · intro c hc
        rcases List.mem_cons.mp hc with rfl | hc
        · simp [List.length_take]
        · exact hle c hc
      · simp [cumulativeLengths, hprog]

/-- The pump with a token that trips at or before its last check returns
`Cancelled`.  The pump makes `numChunks src + 1` checks, at indices
`i, …, i + numChunks src`. -/
theorem copyPump_cancelled :
    ∀ (n : Nat) (src : List Nat) (i w k : Nat), src.length ≤ n →
    k ≤ i + numChunks src →
    copyPump (some k) i w src = .error .Cancelled := by
  intro n
  induction n with
  | zero =>
    intro src i w k h hk
    have hsrc : src = [] := List.length_eq_zero.mp (Nat.le_zero.mp h)
    subst hsrc
    have hki : k ≤ i := by
      simpa [numChunks] using hk
    rw [copyPump.eq_def]
    simp [cancelledAt, hki]
  | succ n ih =>
    intro src i w k h hk
    by_cases hki : k ≤ i
    · rw [copyPump.eq_def]
      simp [cancelledAt, hki]
    · match src with
      | [] =>
        exfalso
        have : numChunks ([] : List Nat) = 0 := by simp [numChunks]
        omega
      | b :: rest0 =>
        have hlen : ((b :: rest0).drop 8192).length ≤ n := by
          simp only [List.length_drop, List.length_cons]
          simp only [List.length_cons] at h
          omega
        have hk' : k ≤ (i + 1) + numChunks ((b :: rest0).drop 8192) := by
          simp only [numChunks, List.length_drop, List.length_cons] at hk ⊢
          omega
        have hrec := ih ((b :: rest0).drop 8192) (i + 1)
          (w + ((b :: rest0).take 8192).length) k hlen hk'
        rw [copyPump.eq_def]
        simp only [cancelledAt, decide_eq_true_eq, if_neg hki, hrec]

/-- After `cancel`, no sequence of further token operations clears the
flag. -/
theorem applyOps_cancelled (ops : List Cancellable.Op) :
    Cancellable.applyOps true ops = true := by
  induction ops with
  | nil => rfl
  | cons op rest ih =>
    cases op
    simpa [Cancellable.applyOps, Cancellable.cancel] using ih

/-- Splitting on `/` undoes joining slash-free components with `/`. -/
theorem splitOnSlash_intercalate :
    ∀ comps : List (List Nat), comps ≠ [] → (∀ c ∈ comps, 47 ∉ c) →
    splitOnSlash (List.intercalate [47] comps) = comps := by
  have single : ∀ c : List Nat, 47 ∉ c → splitOnSlash c = [c] := by
    intro c
    induction c with
    | nil => intro _; rfl
    | cons b t ih =>
      intro hb
      have hb47 : (b == 47) = false := by
        simp only [beq_eq_false_iff_ne]
        intro hcontra
        exact hb (by simp [hcontra])
      have ht : 47 ∉ t := fun hmem => hb (List.mem_cons_of_mem _ hmem)
      simp [splitOnSlash, hb47, ih ht]
  have step : ∀ (c : List Nat) (rest : List Nat), 47 ∉ c →
      splitOnSlash (c ++ 47 :: rest) = c :: splitOnSlash rest := by
    intro c
    induction c with
    | nil => intro rest _; simp [splitOnSlash]
    | cons b t ih =>
      intro rest hb
      have hb47 : (b == 47) = false := by
        simp only [beq_eq_false_iff_ne]
        intro hcontra
        exact hb (by simp [hcontra])
      have ht : 47 ∉ t := fun hmem => hb (List.mem_cons_of_mem _ hmem)
      have hrec := ih rest ht
      simp only [List.cons_append, splitOnSlash, hb47, List.append_eq,
        Bool.false_eq_true, if_false, hrec]
  intro comps
  induction comps with
  | nil => intro h _; exact absurd rfl h
  | cons c rest ih =>
    intro _ hfree
    rcases rest with _ | ⟨c2, rest'⟩
    · simpa [List.intercalate] using single c (hfree c (List.mem_cons_self c []))
    · have hc : 47 ∉ c := hfree c (List.mem_cons_self _ _)
      have hrest : ∀ x ∈ c2 :: rest', 47 ∉ x :=
        fun x hx => hfree x (List.mem_cons_of_mem _ hx)
      have hinter : List.intercalate [47] (c :: c2 :: rest') =
          c ++ 47 :: List.intercalate [47] (c2 :: rest') := by
        simp [List.intercalate, List.intersperse]
      rw [hinter, step c _ hc, ih (by simp) hrest]

/-- A successful basename lookup points at an element with that name. -/
theorem findByName_spec :
    ∀ (files : List FileInfoM) (b : String) (i : Nat),
    findByName files b = some i →
    i < files.length ∧ (files.getD i ⟨none, 0⟩).name = some b := by
  intro files
  induction files with
  | nil => intro b i h; simp [findByName] at h
  | cons f rest ih =>
    intro b i h
    simp only [findByName] at h
    by_cases hf : f.name = some b
    · simp only [hf, beq_self_eq_true, if_true] at h
      cases h
      simpa [List.getD] using hf
    · have hfb : (f.name == some b) = false := by
        simpa [beq_eq_false_iff_ne] using hf
      simp only [hfb, Bool.false_eq_true, if_false, Option.map_eq_some'] at h
      obtain ⟨j, hj, rfl⟩ := h
      obtain ⟨hjl, hjn⟩ := ih b j hj
      constructor
      · simpa using Nat.succ_lt_succ hjl
      · simpa [List.getD] using hjn

/-- A basename absent from the list makes the lookup fail. -/
theorem findByName_eq_none (files : List FileInfoM) (b : String)
    (h : ∀ f ∈ files, f.name ≠ some b) : findByName files b = none := by
  induction files with
  | nil => rfl
  | cons f rest ih =>
    have hf : (f.name == some b) = false := by
      simpa [beq_eq_false_iff_ne] using h f (List.mem_cons_self _ _)
    have hrec := ih (fun g hg => h g (List.mem_cons_of_mem _ hg))
    simp [findByName, hf, hrec]

/-- With no fuel or a non-matching head, the scheme stripper returns its
input unchanged. -/
theorem trimFileSchemeAux_no_strip (fuel : Nat) (s : List Char)
    (h : ("file://".data).isPrefixOf s = false) : trimFileSchemeAux fuel s = s := by
  cases fuel with
  | zero => rfl
  | succ n => simp [trimFileSchemeAux, h]

/-- Stripping `file://` from `file://` ++ `r` yields `r` when `r` does not
itself start with `file://`. -/
theorem trimStartMatches_append (r : List Char)
    (hr : ("file://".data).isPrefixOf r = false) :
    trimStartMatchesFileScheme ("file://".data ++ r) = r := by
  unfold trimStartMatchesFileScheme
  have h7 : ("file://".data).length = 7 := rfl
  have hlen : ("file://".data ++ r).length = (6 + r.length) + 1 := by
    simp [List.length_append, h7]
    omega
  rw [hlen]
  have hpre : ("file://".data).isPrefixOf ("file://".data ++ r) = true :=
    List.isPrefixOf_iff_prefix.mpr ⟨r, rfl⟩
  have hdrop : ("file://".data ++ r).drop 7 = r := by
    have := List.drop_left "file://".data r
    rwa [h7] at this
  simp only [trimFileSchemeAux, hpre, if_true, hdrop]
  exact trimFileSchemeAux_no_strip _ _ hr

/-- A URI starting with `file://` contains the scheme separator. -/
theorem containsSub_of_file_uri (u : List Char)
    (h : ("file://".data).isPrefixOf u = true) :
    containsSub u "://".data = true := by
  obtain ⟨t, ht⟩ := List.isPrefixOf_iff_prefix.mp h
  exact (containsSub_iff _ _).mpr ⟨"file".data, t, by rw [← ht]; rfl⟩

/-- The text before the first `://` of a `file://` URI is `file`. -/
theorem beforeFirst_file_uri (r : List Char) :
    beforeFirst ("file://".data ++ r) "://".data = "file".data := by
  show beforeFirst ('f' :: 'i' :: 'l' :: 'e' :: ':' :: '/' :: '/' :: r)
      (':' :: '/' :: '/' :: []) = "file".data
  simp [beforeFirst, List.isPrefixOf]

/-! ## Claim theorems -/

/-- C1: the claim says the thumbnail file name for a URI is the
lowercase-hex MD5 digest of the raw URI bytes with extension `.png`, with
`thumbnail_name("file:///tmp/test.png") = "6756f54a791d53a4ece8ebb70471b573.png"`.
The MD5 fingerprint of that URI is indeed the claimed digest, but the code
(`ThumbnailBackend::uri_to_thumbnail_name`) hashes with `DefaultHasher`
(SipHash-1-3, zero keys) instead of the MD5 its own doc comment promises,
so it returns `"d0ee23e1d05dcf81.png"`, not the claimed name. -/
theorem c1_thumbnail_name_not_md5 :
    uri_to_thumbnail_name "file:///tmp/test.png" = "d0ee23e1d05dcf81.png"
    ∧ md5Hex (strBytes "file:///tmp/test.png") = "6756f54a791d53a4ece8ebb70471b573"
    ∧ uri_to_thumbnail_name "file:///tmp/test.png"
        ≠ "6756f54a791d53a4ece8ebb70471b573.png" := by
  refine ⟨by decide, by decide, by decide⟩

/-- C2 counterexample: with a `file://` destination that does not exist,
`Overwrite` irrelevant and `NoFallbackForMove` unset, a cross-device rename
failure makes `LocalFile::move_to` return the error kind `Failed` — it does
not fall back to copy+delete; and a rename failure whose OS kind is
`PermissionDenied` also comes back as `Failed`, not as the mapped OS kind. -/
theorem c2_counterexample :
    LocalFile.move_to true false CopyFlags.flagsNone (some RenameError.crossDevice) false
      = .error .Failed
    ∧ LocalFile.move_to true false CopyFlags.flagsNone (some RenameError.crossDevice) false
      ≠ .ok MoveMethod.copiedThenDeleted
    ∧ LocalFile.move_to true false CopyFlags.flagsNone (some RenameError.permissionDenied) false
      = .error .Failed
    ∧ IOErrorEnum.Failed ≠ IOErrorEnum.PermissionDenied := by
  refine ⟨rfl, ?_, rfl, by decide⟩
  intro h
  exact Except.noConfusion h

/-- C2 (amended): for a `file://` destination, `move_to` first fails with
`Exists` when the destination exists and `Overwrite` is unset; otherwise it
attempts the rename and maps *every* rename failure — cross-device
included, regardless of `NoFallbackForMove` — to kind `Failed`, with no
copy+delete fallback; only a non-`file://` destination is handled by
copy-then-delete. -/
theorem c2_move_to_amended :
    ∀ (destExists : Bool) (flags : CopyFlags) (r : Option RenameError)
      (e : RenameError),
      (destExists = true → flags.overwrite = false →
        LocalFile.move_to true destExists flags r false = .error .Exists)
      ∧ (¬ (destExists = true ∧ flags.overwrite = false) →
        LocalFile.move_to true destExists flags (some e) false = .error .Failed)
      ∧ (¬ (destExists = true ∧ flags.overwrite = false) →
        LocalFile.move_to true destExists flags none false = .ok .renamed)
      ∧ LocalFile.move_to false destExists flags r false = .ok .copiedThenDeleted := by
  intro destExists flags r e
  refine ⟨?_, ?_, ?_, ?_⟩
  · intro hd hov
    subst hd
    simp [LocalFile.move_to, Cancellable.check, Cancellable.is_cancelled, hov]
  · intro hn
    have : (destExists && !flags.overwrite) = false := by
      cases destExists <;> cases hov : flags.overwrite <;> simp_all
    simp [LocalFile.move_to, Cancellable.check, Cancellable.is_cancelled, this]
  · intro hn
    have : (destExists && !flags.overwrite) = false := by
      cases destExists <;> cases hov : flags.overwrite <;> simp_all
    simp [LocalFile.move_to, Cancellable.check, Cancellable.is_cancelled, this]
  · simp [LocalFile.move_to, Cancellable.check, Cancellable.is_cancelled]

/-- C2 witness: the amended theorem applied at a concrete input — an
existing destination without `Overwrite` yields `Exists`. -/
theorem c2_witness :
    LocalFile.move_to true true CopyFlags.flagsNone (some RenameError.crossDevice) false
      = .error .Exists :=
  (c2_move_to_amended true CopyFlags.flagsNone (some RenameError.crossDevice)
    RenameError.crossDevice).1 rfl rfl

/-- C3: for every source, `copy` under `Overwrite` with an untripped token
succeeds and writes exactly the source bytes (the chunk decomposition
flattens back to the source); every chunk is at most 8 KiB; the progress
callback receives the cumulative byte count after each written chunk; and
without `Overwrite` an existing destination makes `copy` fail with kind
`Exists`. -/
theorem c3_copy_byte_exact :
    ∀ (src : List Nat) (destExists : Bool),
      (∃ chunks prog,
        LocalFile.copy src destExists CopyFlags.overwriteOnly none = .ok (chunks, prog)
        ∧ chunks.flatten = src
        ∧ (∀ c ∈ chunks, c.length ≤ 8192)
        ∧ prog = cumulativeLengths chunks 0)
      ∧ (destExists = true →
          LocalFile.copy src destExists CopyFlags.flagsNone none = .error .Exists) := by
  intro src destExists
  constructor
  · obtain ⟨chunks, prog, heq, hflat, hle, hprog⟩ :=
      copyPump_none_ok src.length src 0 0 le_rfl
    refine ⟨chunks, prog, ?_, hflat, hle, hprog⟩
    simpa [LocalFile.copy, cancelledAt, CopyFlags.overwriteOnly] using heq
  · intro hd
    subst hd
    simp [LocalFile.copy, cancelledAt, CopyFlags.flagsNone, npioErrorFromIoError]

/-- C3 witness: the theorem applied at a concrete source and an existing
destination. -/
theorem c3_witness :
    (∃ chunks prog,
      LocalFile.copy [1, 2, 3] true CopyFlags.overwriteOnly none = .ok (chunks, prog)
      ∧ chunks.flatten = [1, 2, 3]
      ∧ (∀ c ∈ chunks, c.length ≤ 8192)
      ∧ prog = cumulativeLengths chunks 0)
    ∧ LocalFile.copy [1, 2, 3] true CopyFlags.flagsNone none = .error .Exists :=
  ⟨(c3_copy_byte_exact [1, 2, 3] true).1, (c3_copy_byte_exact [1, 2, 3] true).2 rfl⟩

/-- C4: `create_file` is an exclusive create: on an existing path it fails
with kind `Exists` (the mapped `AlreadyExists` OS error), and of two
successive `create_file` calls on the same path the second fails with
`Exists`. -/
theorem c4_create_file_exclusive :
    ∀ (fs : List String) (path : String) (fs' : List String),
      (path ∈ fs → LocalFile.create_file false fs path = .error .Exists)
      ∧ (LocalFile.create_file false fs path = .ok fs' →
          LocalFile.create_file false fs' path = .error .Exists) := by
  intro fs path fs'
  constructor
  · intro hmem
    simp [LocalFile.create_file, Cancellable.check, Cancellable.is_cancelled,
      hmem, npioErrorFromIoError]
  · intro hok
    by_cases hmem : path ∈ fs
    · simp [LocalFile.create_file, Cancellable.check, Cancellable.is_cancelled,
        hmem] at hok
    · simp only [LocalFile.create_file, Cancellable.check, Cancellable.is_cancelled,
        if_false, Bool.false_eq_true, if_neg hmem] at hok
      cases hok
      simp [LocalFile.create_file, Cancellable.check, Cancellable.is_cancelled,
        npioErrorFromIoError]

/-- C4 witness: the second of two successive creates of the same path
fails with `Exists`. -/
theorem c4_witness :
    LocalFile.create_file false ["file:///tmp/x"] "file:///tmp/x" = .error .Exists :=
  (c4_create_file_exclusive [] "file:///tmp/x" ["file:///tmp/x"]).2 rfl

/-- C5 counterexample: the claim says *exactly* its listed characters and
control bytes are encoded, but the crate's encoder also encodes every
non-ASCII byte: trashing a path whose basename is `é` (UTF-8 bytes
`0xC3 0xA9`) yields the `Path=` value `/tmp/%C3%A9`, although neither byte
is in the claim's character set. -/
theorem c5_counterexample :
    trashEncodePath [47, 116, 109, 112, 47, 195, 169] = strBytes "/tmp/%C3%A9"
    ∧ specEncodedChars 195 = false
    ∧ specEncodedChars 169 = false := by
  refine ⟨by decide, rfl, rfl⟩

/-- C5 (amended): the trashinfo content is exactly
`"[Trash Info]\nPath=<p>\nDeletionDate=<d>\n"`; a byte is percent-encoded
if and only if it is in the claim's character list (space, the listed
punctuation, and control bytes) *or* is a non-ASCII byte (`≥ 0x80`);
joined slash-free components are encoded per-component with `/`
preserved; and the claim's concrete example encodes `a b.txt` to
`a%20b.txt`. -/
theorem c5_trash_encoding :
    (∀ b, b < 256 →
      shouldPercentEncode b = (specEncodedChars b || decide (128 ≤ b)))
    ∧ (∀ comps : List (List Nat), comps ≠ [] → (∀ c ∈ comps, 47 ∉ c) →
        trashEncodePath (47 :: List.intercalate [47] comps)
          = 47 :: List.intercalate [47] (comps.map encodeComponent))
    ∧ trashEncodePath (strBytes "/home/user/tmp/a b.txt")
        = strBytes "/home/user/tmp/a%20b.txt"
    ∧ trashinfoContent "/home/user/tmp/a%20b.txt" "2024-05-01T12:00:00"
        = "[Trash Info]\nPath=/home/user/tmp/a%20b.txt\nDeletionDate=2024-05-01T12:00:00\n" := by
  refine ⟨by decide, ?_, by decide, rfl⟩
  intro comps hne hfree
  simp [trashEncodePath, splitOnSlash_intercalate comps hne hfree]

/-- C5 witness: the per-component conjunct applied to the concrete
components `tmp` and `a b`. -/
theorem c5_witness :
    trashEncodePath (47 :: List.intercalate [47] [[116, 109, 112], [97, 32, 98]])
      = 47 :: List.intercalate [47] ([[116, 109, 112], [97, 32, 98]].map encodeComponent) :=
  c5_trash_encoding.2.1 [[116, 109, 112], [97, 32, 98]] (by decide) (by decide)

/-- C6 counterexample: the URI `file://file:///tmp` contains a scheme
separator and resolves through the registry, but `trim_start_matches`
strips the `file://` prefix *twice*, so the handle's `uri()` is
`file:///tmp`, not the input; and the scheme-less input `tmp/x` is
dispatched to the local backend, which rejects it with `InvalidArg`
because it does not start with `file://` — resolution does not succeed. -/
theorem c6_counterexample :
    containsSub "file://file:///tmp".data "://".data = true
    ∧ get_file_for_uri "file://file:///tmp".data = .ok "file:///tmp".data
    ∧ "file:///tmp".data ≠ "file://file:///tmp".data
    ∧ get_file_for_uri "tmp/x".data = .error .InvalidArg :=
  ⟨by decide, rfl, by decide, rfl⟩

/-- C6 (amended): for a URI `file://` ++ `r` whose remainder `r` does not
itself start with `file://`, resolution through the registry returns a
handle whose `uri()` equals the input; a URI with no scheme separator is
dispatched under the local scheme, but the local backend rejects it with
`InvalidArg`, so resolution fails even with the local backend
registered. -/
theorem c6_resolve_amended :
    (∀ r : List Char, ("file://".data).isPrefixOf r = false →
      get_file_for_uri ("file://".data ++ r) = .ok ("file://".data ++ r))
    ∧ (∀ u : List Char, containsSub u "://".data = false →
      get_file_for_uri u = .error .InvalidArg) := by
  constructor
  · intro r hr
    have hcontains := containsSub_of_file_uri ("file://".data ++ r)
      (List.isPrefixOf_iff_prefix.mpr ⟨r, rfl⟩)
    have hbefore := beforeFirst_file_uri r
    have hpre : ("file://".data).isPrefixOf ("file://".data ++ r) = true :=
      List.isPrefixOf_iff_prefix.mpr ⟨r, rfl⟩
    have htrim := trimStartMatches_append r hr
    simp only [get_file_for_uri, hcontains, if_true, hbefore,
      eq_self_iff_true, LocalBackend.get_file_for_uri, hpre, Bool.not_true,
      Bool.false_eq_true, if_false, htrim, LocalFile.uri]
  · intro u hu
    have hnp : ("file://".data).isPrefixOf u = false := by
      cases h : ("file://".data).isPrefixOf u
      · rfl
      · rw [containsSub_of_file_uri u h] at hu
        cases hu
    simp only [get_file_for_uri, hu, Bool.false_eq_true, if_false,
      eq_self_iff_true, if_true, LocalBackend.get_file_for_uri, hnp,
      Bool.not_false]

/-- C6 witness: the amended theorem applied to `file:///tmp` (round-trips)
and to the scheme-less `a/b` (rejected with `InvalidArg`). -/
theorem c6_witness :
    get_file_for_uri ("file://".data ++ "/tmp".data)
      = .ok ("file://".data ++ "/tmp".data)
    ∧ get_file_for_uri "a/b".data = .error .InvalidArg :=
  ⟨c6_resolve_amended.1 "/tmp".data (by decide),
   c6_resolve_amended.2 "a/b".data (by decide)⟩

/-- C7 counterexample: the mountinfo line for a tmpfs mounted at
`/mnt/ram` parses to an entry that is classified system-internal (its
filesystem type is `tmpfs`), yet `can_eject()` is true because the mount
point is under `/mnt` — system-internal does not imply `!can_eject`. -/
theorem c7_counterexample :
    (parse_mountinfo_line "36 35 0:32 / /mnt/ram rw shared:1 - tmpfs tmpfs rw").map
        (fun e => ((UnixMount.new e).is_system_internal,
          (UnixMount.new e).can_eject, (UnixMount.new e).can_unmount))
      = some (true, true, false) := rfl

/-- C7 (amended): every system-internal mount has `can_unmount() = false`;
`can_eject()` is decided solely by whether the mount point is under
`/media` or `/mnt`, independently of the system-internal classification —
so a system-internal mount not under `/media` or `/mnt` also has
`can_eject() = false`. -/
theorem c7_system_internal_amended :
    ∀ e : MountEntry, (UnixMount.new e).is_system_internal = true →
      (UnixMount.new e).can_unmount = false
      ∧ (UnixMount.new e).can_eject =
          (pathStartsWith e.mount_point "/media" || pathStartsWith e.mount_point "/mnt")
      ∧ (pathStartsWith e.mount_point "/media" = false →
          pathStartsWith e.mount_point "/mnt" = false →
          (UnixMount.new e).can_eject = false) := by
  intro e h
  refine ⟨?_, rfl, ?_⟩
  · simp [UnixMount.can_unmount, h]
  · intro h1 h2
    simp [UnixMount.can_eject, UnixMount.new, h1, h2]

/-- C7 witness: the amended theorem applied to the parsed tmpfs entry at
`/mnt/ram`. -/
theorem c7_witness :
    (UnixMount.new ⟨36, 35, "0:32", "/", "/mnt/ram", "rw", "shared:1",
        "tmpfs", "tmpfs", "rw"⟩).can_unmount = false
    ∧ (UnixMount.new ⟨36, 35, "0:32", "/", "/mnt/ram", "rw", "shared:1",
        "tmpfs", "tmpfs", "rw"⟩).can_eject =
        (pathStartsWith "/mnt/ram" "/media" || pathStartsWith "/mnt/ram" "/mnt")
    ∧ (pathStartsWith "/mnt/ram" "/media" = false →
        pathStartsWith "/mnt/ram" "/mnt" = false →
        (UnixMount.new ⟨36, 35, "0:32", "/", "/mnt/ram", "rw", "shared:1",
          "tmpfs", "tmpfs", "rw"⟩).can_eject = false) :=
  c7_system_internal_amended
    ⟨36, 35, "0:32", "/", "/mnt/ram", "rw", "shared:1", "tmpfs", "tmpfs", "rw"⟩ rfl

/-- C8 counterexample: a parsed entry whose options field is
`rw,errors=remount-ro` is classified read-only by the code (the options
string merely *contains* the substring `ro`), although `ro` is not one of
its comma-separated tokens — so read-only classification is not the token
test the claim states. -/
theorem c8_counterexample :
    (parse_mountinfo_line
        "40 35 8:2 / /home rw,errors=remount-ro shared:2 - ext4 /dev/sda2 rw").map
        (fun e => (UnixMount.new e).is_read_only) = some true
    ∧ specRoTokenPresent "rw,errors=remount-ro" = false :=
  ⟨rfl, rfl⟩

/-- C8 (amended): a parsed mount entry is classified read-only if and only
if its mount-options field contains `ro` as a *substring* anywhere (so
`rw,errors=remount-ro` is read-only and `rw,noatime` is not). -/
theorem c8_read_only_substring :
    ∀ e : MountEntry,
      (UnixMount.new e).is_read_only = true
        ↔ ∃ a b : List Char, e.mount_options.data = a ++ "ro".data ++ b := by
  intro e
  have hdef : (UnixMount.new e).is_read_only
      = containsSub e.mount_options.data "ro".data := rfl
  rw [hdef]
  exact containsSub_iff _ _

/-- C9: once `cancel()` has run, `is_cancelled()` stays true under every
further sequence of token operations; `check` on a cancelled token returns
kind `Cancelled`; a cancelled token makes `create_file`, `move_to` and
`copy` return `Cancelled` instead of performing their effect; and in the
copy pump, a token that trips at any chunk boundary makes `copy` return
`Cancelled`. -/
theorem c9_cancellation :
    (∀ (s : Bool) (ops : List Cancellable.Op),
      Cancellable.is_cancelled (Cancellable.applyOps (Cancellable.cancel s) ops) = true)
    ∧ (∀ s : Bool, Cancellable.is_cancelled s = true →
        Cancellable.check s = .error .Cancelled)
    ∧ (∀ (fs : List String) (p : String),
        LocalFile.create_file true fs p = .error .Cancelled)
    ∧ (∀ (destUriIsFile destExists : Bool) (flags : CopyFlags)
        (r : Option RenameError),
        LocalFile.move_to destUriIsFile destExists flags r true = .error .Cancelled)
    ∧ (∀ (src : List Nat) (destExists : Bool) (flags : CopyFlags),
        LocalFile.copy src destExists flags (some 0) = .error .Cancelled)
    ∧ (∀ (src : List Nat) (k : Nat), k ≤ numChunks src →
        LocalFile.copy src false CopyFlags.overwriteOnly (some k) = .error .Cancelled) := by
  refine ⟨?_, ?_, ?_, ?_, ?_, ?_⟩
  · intro s ops
    exact applyOps_cancelled ops
  · intro s h
    simp [Cancellable.check, h]
  · intro fs p
    rfl
  · intro destUriIsFile destExists flags r
    rfl
  · intro src destExists flags
    rfl
  · intro src k hk
    rcases Nat.eq_zero_or_pos k with rfl | hkpos
    · rfl
    · have hc : cancelledAt (some k) 0 = false := by
        simp [cancelledAt]
        omega
      have hp := copyPump_cancelled src.length src 0 0 k le_rfl (by simpa using hk)
      simp [LocalFile.copy, hc, CopyFlags.overwriteOnly, hp]

/-- C9 witness: `check` on a cancelled token, and a copy of a 3-byte
source cancelled at the second check (between the only data chunk and the
final read), both return kind `Cancelled`. -/
theorem c9_witness :
    Cancellable.check true = .error .Cancelled
    ∧ LocalFile.copy [1, 2, 3] false CopyFlags.overwriteOnly (some 1)
        = .error .Cancelled :=
  ⟨c9_cancellation.2.1 true rfl,
   c9_cancellation.2.2.2.2.2 [1, 2, 3] 1 (by decide)⟩

/-- C10: in the monitor task, a Deleted event broadcasts nothing and
leaves the state unchanged when no entry carries the basename; when an
entry is present, the matching entry is removed and the Removed delta
carries that entry's stored metadata; a Changed event whose `query_info`
succeeded broadcasts a Changed delta even when no entry carries the
basename, in which case the state is not modified. -/
theorem c10_monitor_step :
    (∀ (files : List FileInfoM) (b : String) (q : Option FileInfoM),
      (∀ f ∈ files, f.name ≠ some b) →
      monitorStep files (.deleted b) q = (files, []))
    ∧ (∀ (files : List FileInfoM) (b : String) (q : Option FileInfoM) (i : Nat),
      findByName files b = some i →
      monitorStep files (.deleted b) q
          = (files.eraseIdx i, [.removed (files.getD i ⟨none, 0⟩)])
        ∧ i < files.length
        ∧ (files.getD i ⟨none, 0⟩).name = some b)
    ∧ (∀ (files : List FileInfoM) (b : String) (info : FileInfoM),
      (∀ f ∈ files, f.name ≠ some b) →
      monitorStep files (.changed b) (some info) = (files, [.changed info])) := by
  refine ⟨?_, ?_, ?_⟩
  · intro files b q h
    simp [monitorStep, findByName_eq_none files b h]
  · intro files b q i h
    exact ⟨by simp [monitorStep, h], (findByName_spec files b i h).1,
      (findByName_spec files b i h).2⟩
  · intro files b info h
    simp [monitorStep, findByName_eq_none files b h]

/-- C10 witness: the theorem applied to concrete one-element states — a
Deleted event for an absent basename, a Deleted event for the present
basename, and a Changed event for an absent basename. -/
theorem c10_witness :
    monitorStep [⟨some "x.txt", 1⟩] (.deleted "y.txt") none = ([⟨some "x.txt", 1⟩], [])
    ∧ (monitorStep [⟨some "x.txt", 1⟩] (.deleted "x.txt") none
        = (([⟨some "x.txt", 1⟩] : List FileInfoM).eraseIdx 0,
           [.removed (([⟨some "x.txt", 1⟩] : List FileInfoM).getD 0 ⟨none, 0⟩)])
      ∧ 0 < ([⟨some "x.txt", 1⟩] : List FileInfoM).length
      ∧ ((([⟨some "x.txt", 1⟩] : List FileInfoM).getD 0 ⟨none, 0⟩)).name = some "x.txt")
    ∧ monitorStep [⟨some "x.txt", 1⟩] (.changed "z.txt") (some ⟨some "z.txt", 2⟩)
        = ([⟨some "x.txt", 1⟩], [.changed ⟨some "z.txt", 2⟩]) :=
  ⟨c10_monitor_step.1 [⟨some "x.txt", 1⟩] "y.txt" none (by decide),
   c10_monitor_step.2.1 [⟨some "x.txt", 1⟩] "x.txt" none 0 rfl,
   c10_monitor_step.2.2 [⟨some "x.txt", 1⟩] "z.txt" ⟨some "z.txt", 2⟩ (by decide)⟩

end Npio
